import Mathlib

/-!
# QOI thumbnail provider: decoder and bitmap conversion

A shallow embedding of `CQOIThumbProvider` (src/QOIThumbnailProvider.cpp):
`ReadU8`, `ReadU32_BE`, `LoadQOIImageFromStream`, `QOIImageToHBITMAP` and
`GetThumbnail`, followed by the properties proved about them.

Modelling conventions.
* The byte source behind `mStream` is a finite list of bytes (`Fin 256`); one
  `IStream::Read` of a single byte either delivers the next byte or reports
  that nothing was read.
* `uint8_t` / `uint32_t` / `size_t` values are natural numbers; every place
  where the C++ narrows a value carries its explicit `% 2 ^ w`.
* `int run` only ever holds `b1 & 0x3F` or a decrement of a positive value, so
  it is a natural number.
-/

namespace QOI

/-! ## Data model -/

/-- One byte delivered by the stream. -/
abbrev Byte := Fin 256

/-- The packed pixel `struct QOIRgba { uint8_t r, g, b, a; }`. -/
structure QOIRgba where
  r : Nat
  g : Nat
  b : Nat
  a : Nat
deriving DecidableEq

/-- `QOIRgba::Hash`: `r*3 + g*5 + b*7 + a*11` computed in `size_t`
(at most `255 * 26`, so no wrap-around is possible for byte channels). -/
def QOIRgba.Hash (p : QOIRgba) : Nat :=
  p.r * 3 + p.g * 5 + p.b * 7 + p.a * 11

/-- `struct QOIImage`. -/
structure QOIImage where
  width : Nat
  height : Nat
  channels : Nat
  colorSpace : Nat
  pixels : List QOIRgba
deriving DecidableEq

def ColorspaceSRGB : Nat := 0
def ColorspaceLinear : Nat := 1

def QOI_OP_INDEX : Nat := 0x00
def QOI_OP_DIFF : Nat := 0x40
def QOI_OP_LUMA : Nat := 0x80
def QOI_OP_RUN : Nat := 0xC0
def QOI_OP_RGB : Nat := 0xFE
def QOI_OP_RGBA : Nat := 0xFF
def QOI_MASK_2 : Nat := 0xC0

/-- `QOI_MAGIC = 'q' << 24 | 'o' << 16 | 'i' << 8 | 'f'`. -/
def QOI_MAGIC : Nat := (0x71 <<< 24) ||| (0x6F <<< 16) ||| (0x69 <<< 8) ||| 0x66

def QOI_PIXELS_MAX : Nat := 400000000

/-- Width in bits of `size_t`; the narrowest one the code is built for. -/
def SIZE_T_BITS : Nat := 32

/-- Conversion of an `int` value to `uint8_t` (what `px.r += ...` stores). -/
def toU8 (x : Int) : Nat := (x % 256).toNat

/-! ## Reading from the stream -/

/-- `mStream->Read(&result, 1, &bytesRead)`: the next byte when there is one,
`none` when the read fails or reads nothing; the stream advances past a
delivered byte. -/
def streamRead : List Byte → Option Byte × List Byte
  | [] => (none, [])
  | b :: rest => (some b, rest)

/-- `ReadU8`: `(FAILED(hr) || bytesRead < 1) ? 0 : result`. -/
def ReadU8 (s : List Byte) : Nat × List Byte :=
  match streamRead s with
  | (none, s') => (0, s')
  | (some b, s') => (b.val, s')

/-- `ReadU32_BE`: four `ReadU8` calls combined as `a << 24 | b << 16 | c << 8 | d`
in `uint32_t`. -/
def ReadU32_BE (s : List Byte) : Nat × List Byte :=
  let ra := ReadU8 s
  let rb := ReadU8 ra.2
  let rc := ReadU8 rb.2
  let rd := ReadU8 rc.2
  ((ra.1 <<< 24 ||| rb.1 <<< 16 ||| rc.1 <<< 8 ||| rd.1) % 2 ^ 32, rd.2)

/-! ## The decode loop -/

/-- The variables live across iterations of the pixel loop of
`LoadQOIImageFromStream`: the stream, `index[64]`, `px`, `run` and
`image.pixels`. -/
structure DecState where
  stream : List Byte
  index : List QOIRgba
  px : QOIRgba
  run : Nat
  pixels : List QOIRgba
deriving DecidableEq

/-- The `if / else if` chain on the opcode byte `b1` (lines 158-181): it reads
the operand bytes, updates `px` and, for a run, sets `run`. -/
def applyOpcode (b1 : Nat) (st : DecState) : DecState :=
  if QOI_OP_RGB = b1 then
    let rr := ReadU8 st.stream
    let rg := ReadU8 rr.2
    let rb := ReadU8 rg.2
    { st with stream := rb.2, px := { st.px with r := rr.1, g := rg.1, b := rb.1 } }
  else if QOI_OP_RGBA = b1 then
    let rr := ReadU8 st.stream
    let rg := ReadU8 rr.2
    let rb := ReadU8 rg.2
    let ra := ReadU8 rb.2
    { st with stream := ra.2, px := { r := rr.1, g := rg.1, b := rb.1, a := ra.1 } }
  else if QOI_OP_INDEX = (b1 &&& QOI_MASK_2) then
    { st with px := st.index.getD b1 ⟨0, 0, 0, 0⟩ }
  else if QOI_OP_DIFF = (b1 &&& QOI_MASK_2) then
    { st with px :=
        { st.px with
          r := toU8 ((st.px.r : Int) + ((((b1 >>> 4) &&& 0x03 : Nat) : Int) - 2))
          g := toU8 ((st.px.g : Int) + ((((b1 >>> 2) &&& 0x03 : Nat) : Int) - 2))
          b := toU8 ((st.px.b : Int) + (((b1 &&& 0x03 : Nat) : Int) - 2)) } }
  else if QOI_OP_LUMA = (b1 &&& QOI_MASK_2) then
    let r2 := ReadU8 st.stream
    let b2 := r2.1
    let vg : Int := ((b1 &&& 0x3F : Nat) : Int) - 32
    { st with
      stream := r2.2
      px :=
        { st.px with
          r := toU8 ((st.px.r : Int) + (vg - 8 + (((b2 >>> 4) &&& 0x0F : Nat) : Int)))
          g := toU8 ((st.px.g : Int) + vg)
          b := toU8 ((st.px.b : Int) + (vg - 8 + ((b2 &&& 0x0F : Nat) : Int))) } }
  else if QOI_OP_RUN = (b1 &&& QOI_MASK_2) then
    { st with run := b1 &&& 0x3F }
  else
    st

/-- The `else` branch of `if (run > 0)` (lines 156-183): read the opcode byte,
run the opcode chain, then `index[px.Hash() % 64] = px`. -/
def readOpcode (st : DecState) : DecState :=
  let r1 := ReadU8 st.stream
  let st1 := applyOpcode r1.1 { st with stream := r1.2 }
  { st1 with index := st1.index.set (st1.px.Hash % 64) st1.px }

/-- One iteration of the pixel loop, for loop counter `i` (lines 153-186). -/
def decodeStep (i : Nat) (st : DecState) : DecState :=
  let st1 := if st.run > 0 then { st with run := st.run - 1 } else readOpcode st
  { st1 with pixels := st1.pixels.set i st1.px }

/-- `for (size_t i = ...; i < numPixels; ++i)`: the iterations for the counters
`i, i+1, ..., i+n-1`. -/
def decodeLoop : Nat → Nat → DecState → DecState
  | 0, _, st => st
  | n + 1, i, st => decodeLoop n (i + 1) (decodeStep i st)

/-- The state on entry to the loop: the stream after the header,
`index[64] = {}`, `px = {0,0,0,255}`, `run = 0` and `pixels.resize(numPixels)`. -/
def initState (s : List Byte) (numPixels : Nat) : DecState :=
  { stream := s
    index := List.replicate 64 ⟨0, 0, 0, 0⟩
    px := ⟨0, 0, 0, 255⟩
    run := 0
    pixels := List.replicate numPixels ⟨0, 0, 0, 0⟩ }

/-- `LoadQOIImageFromStream`: `none` for `return false`, `some image` for
`return true`.  The argument is `mStream` (`none` for a null pointer). -/
def LoadQOIImageFromStream (mStream : Option (List Byte)) : Option QOIImage :=
  match mStream with
  | none => none
  | some s0 =>
    let rm := ReadU32_BE s0
    let magic := rm.1
    if QOI_MAGIC ≠ magic then none
    else
      let rw := ReadU32_BE rm.2
      let rh := ReadU32_BE rw.2
      let rc := ReadU8 rh.2
      let rs := ReadU8 rc.2
      let width := rw.1
      let height := rh.1
      let channels := rc.1
      let colorSpace := rs.1
      if width = 0 ∨ height = 0 ∨ channels < 3 ∨ channels > 4 ∨
          colorSpace > ColorspaceLinear ∨ height ≥ QOI_PIXELS_MAX / width then none
      else
        let numPixels := (width * height) % 2 ^ SIZE_T_BITS
        let st := decodeLoop numPixels 0 (initState rs.2 numPixels)
        some { width := width, height := height, channels := channels,
               colorSpace := colorSpace, pixels := st.pixels }

/-! ## Bitmap conversion -/

/-- Body of the copy loop of `QOIImageToHBITMAP` for counter `i`
(lines 211-214): `dst[i].b = src[i].r`, `dst[i].g = src[i].g`,
`dst[i].r = src[i].b`, `dst[i].a = src[i].a`. -/
def copyStep (src : List QOIRgba) (i : Nat) (dst : List QOIRgba) : List QOIRgba :=
  let p := src.getD i ⟨0, 0, 0, 0⟩
  let d := dst.getD i ⟨0, 0, 0, 0⟩
  let d := { d with b := p.r }
  let d := { d with g := p.g }
  let d := { d with r := p.b }
  let d := { d with a := p.a }
  dst.set i d

/-- The copy loop for the counters `i, i+1, ..., i+n-1`. -/
def copyLoop (src : List QOIRgba) : Nat → Nat → List QOIRgba → List QOIRgba
  | 0, _, dst => dst
  | n + 1, i, dst => copyLoop src n (i + 1) (copyStep src i dst)

/-- `QOIImageToHBITMAP`.  `surface` is what `CreateDIBSection` hands back:
`none` for a null handle, otherwise the pixel memory of the new section, whose
initial content is whatever it is.  `none` is `return false`, `some dst` is
`return true` with `*phbmp` a bitmap of pixels `dst`. -/
def QOIImageToHBITMAP (image : QOIImage) (surface : Option (List QOIRgba)) :
    Option (List QOIRgba) :=
  match surface with
  | none => none
  | some dstPixels =>
    let numPixels := (image.width * image.height) % 2 ^ SIZE_T_BITS
    some (copyLoop image.pixels numPixels 0 dstPixels)

/-- `WTS_ALPHATYPE`, the two values the provider reports. -/
inductive WTS_ALPHATYPE where
  | WTSAT_RGB
  | WTSAT_ARGB
deriving DecidableEq

/-- The `HRESULT` of `GetThumbnail`, with the out-parameters on success. -/
inductive ThumbResult where
  | E_FAIL
  | E_OUTOFMEMORY
  | S_OK (hbmp : List QOIRgba) (dwAlpha : WTS_ALPHATYPE)
deriving DecidableEq

/-- `GetThumbnail`. -/
def GetThumbnail (mStream : Option (List Byte)) (surface : Option (List QOIRgba)) :
    ThumbResult :=
  match LoadQOIImageFromStream mStream with
  | none => ThumbResult.E_FAIL
  | some image =>
    match QOIImageToHBITMAP image surface with
    | none => ThumbResult.E_OUTOFMEMORY
    | some hbmp =>
      ThumbResult.S_OK hbmp
        (if image.channels = 3 then WTS_ALPHATYPE.WTSAT_RGB else WTS_ALPHATYPE.WTSAT_ARGB)

/-! ## The header, by position -/

/-- Byte `i` of the source as a number, `0` when the source is shorter. -/
def headerByte (s : List Byte) (i : Nat) : Nat := (s.getD i 0).val

/-- Big-endian value of the four bytes at offsets `i .. i+3`. -/
def be32At (s : List Byte) (i : Nat) : Nat :=
  headerByte s i * 2 ^ 24 + headerByte s (i + 1) * 2 ^ 16 + headerByte s (i + 2) * 2 ^ 8 +
    headerByte s (i + 3)

def headerWidth (s : List Byte) : Nat := be32At s 4
def headerHeight (s : List Byte) : Nat := be32At s 8
def headerChannels (s : List Byte) : Nat := headerByte s 12
def headerColorSpace (s : List Byte) : Nat := headerByte s 13

/-- The four bytes `'q','o','i','f'`. -/
def magicBytes : List Byte := [0x71, 0x6F, 0x69, 0x66]

/-- The header checks of lines 138-141 all pass. -/
def HeaderOK (s : List Byte) : Prop :=
  headerWidth s ≠ 0 ∧ headerHeight s ≠ 0 ∧
    (headerChannels s = 3 ∨ headerChannels s = 4) ∧
    (headerColorSpace s = 0 ∨ headerColorSpace s = 1) ∧
    headerHeight s < QOI_PIXELS_MAX / headerWidth s

instance (s : List Byte) : Decidable (HeaderOK s) := by
  unfold HeaderOK; infer_instance

/-- The source `t` is the source `s` followed by some number of zero bytes. -/
def ZeroExt (s t : List Byte) : Prop := ∃ k, t = s ++ List.replicate k (0 : Byte)

/-- Two loop states that agree except that the stream of the second is the
stream of the first followed by zero bytes. -/
def StRel (a b : DecState) : Prop :=
  ZeroExt a.stream b.stream ∧ b.index = a.index ∧ b.px = a.px ∧ b.run = a.run ∧
    b.pixels = a.pixels

/-! ## Basic facts about the readers -/

theorem headerByte_lt (s : List Byte) (i : Nat) : headerByte s i < 256 :=
  (s.getD i 0).isLt

theorem ReadU8_cons (b : Byte) (s : List Byte) : ReadU8 (b :: s) = (b.val, s) := rfl

theorem ReadU8_eq (s : List Byte) : ReadU8 s = (headerByte s 0, s.drop 1) := by
  cases s <;> rfl

theorem headerByte_drop (s : List Byte) (n i : Nat) :
    headerByte (s.drop n) i = headerByte s (n + i) := by
  unfold headerByte
  simp [List.getD_eq_getElem?_getD, List.getElem?_drop]

theorem pack32 (a b c d : Nat) (ha : a < 256) (hb : b < 256) (hc : c < 256) (hd : d < 256) :
    (a <<< 24 ||| b <<< 16 ||| c <<< 8 ||| d) % 2 ^ 32
      = a * 2 ^ 24 + b * 2 ^ 16 + c * 2 ^ 8 + d := by
  have h1 : a <<< 24 ||| b <<< 16 = 2 ^ 16 * (a * 2 ^ 8 + b) := by
    rw [Nat.shiftLeft_eq, Nat.shiftLeft_eq]
    have : a * 2 ^ 24 = 2 ^ 24 * a := by ring
    rw [this, ← Nat.mul_add_lt_is_or (by omega)]
    ring
  have h2 : 2 ^ 16 * (a * 2 ^ 8 + b) ||| c <<< 8 = 2 ^ 8 * (a * 2 ^ 16 + b * 2 ^ 8 + c) := by
    rw [Nat.shiftLeft_eq]
    have : 2 ^ 16 * (a * 2 ^ 8 + b) = 2 ^ 16 * (a * 2 ^ 8 + b) := rfl
    rw [← Nat.mul_add_lt_is_or (by omega)]
    ring
  rw [h1, h2, ← Nat.mul_add_lt_is_or (by omega)]
  rw [Nat.mod_eq_of_lt (by omega)]
  ring

theorem ReadU32_BE_eq (s : List Byte) : ReadU32_BE s = (be32At s 0, s.drop 4) := by
  unfold ReadU32_BE
  simp only [ReadU8_eq, headerByte_drop, List.drop_drop, be32At]
  rw [pack32 _ _ _ _ (headerByte_lt _ _) (headerByte_lt _ _) (headerByte_lt _ _)
    (headerByte_lt _ _)]

theorem be32At_drop (s : List Byte) (n i : Nat) : be32At (s.drop n) i = be32At s (n + i) := by
  unfold be32At
  simp only [headerByte_drop, Nat.add_assoc]

theorem QOI_MAGIC_eq : QOI_MAGIC = 0x716F6966 := by decide

/-- The magic test passes exactly when the source starts with `qoif`. -/
theorem magic_iff (s : List Byte) : be32At s 0 = QOI_MAGIC ↔ s.take 4 = magicBytes := by
  rw [QOI_MAGIC_eq]
  unfold be32At headerByte magicBytes
  rcases s with _ | ⟨a, _ | ⟨b, _ | ⟨c, _ | ⟨d, rest⟩⟩⟩⟩ <;>
    simp [Fin.ext_iff] <;> omega

/-- `LoadQOIImageFromStream` with the reads resolved to positions. -/
theorem Load_eq (s : List Byte) :
    LoadQOIImageFromStream (some s) =
      if s.take 4 = magicBytes ∧ HeaderOK s then
        some { width := headerWidth s, height := headerHeight s,
               channels := headerChannels s, colorSpace := headerColorSpace s,
               pixels := (decodeLoop ((headerWidth s * headerHeight s) % 2 ^ SIZE_T_BITS) 0
                 (initState (s.drop 14)
                   ((headerWidth s * headerHeight s) % 2 ^ SIZE_T_BITS))).pixels }
      else none := by
  have e8 : ∀ t : List Byte, ReadU8 t = (headerByte t 0, t.drop 1) := ReadU8_eq
  have ew : be32At (s.drop 4) 0 = headerWidth s := by rw [be32At_drop]; rfl
  have eh : be32At ((s.drop 4).drop 4) 0 = headerHeight s := by
    rw [be32At_drop, be32At_drop]; rfl
  have ec : headerByte (((s.drop 4).drop 4).drop 4) 0 = headerChannels s := by
    rw [headerByte_drop, headerByte_drop, headerByte_drop]; rfl
  have es : headerByte ((((s.drop 4).drop 4).drop 4).drop 1) 0 = headerColorSpace s := by
    rw [headerByte_drop, headerByte_drop, headerByte_drop, headerByte_drop]; rfl
  have ed : ((((s.drop 4).drop 4).drop 4).drop 1).drop 1 = s.drop 14 := by
    simp only [List.drop_drop]
  unfold LoadQOIImageFromStream
  simp only [ReadU32_BE_eq, e8, ew, eh, ec, es, ed]
  by_cases hm : s.take 4 = magicBytes
  · have hm' : QOI_MAGIC = be32At s 0 := ((magic_iff s).2 hm).symm
    by_cases hh : HeaderOK s
    · have hh' := hh
      obtain ⟨h1, h2, h3, h4, h5⟩ := hh'
      rw [if_neg (by simpa using hm'), if_neg, if_pos ⟨hm, hh⟩]
      simp only [ColorspaceLinear]
      omega
    · rw [if_neg (show ¬ (s.take 4 = magicBytes ∧ HeaderOK s) from fun h => hh h.2),
        if_neg (by simpa using hm'), if_pos]
      unfold HeaderOK at hh
      simp only [ColorspaceLinear]
      by_contra hc
      apply hh
      omega
  · have hm' : QOI_MAGIC ≠ be32At s 0 := fun h => hm ((magic_iff s).1 h.symm)
    rw [if_pos hm', if_neg (fun h => hm h.1)]

/-- Passing the header checks bounds the pixel count. -/
theorem HeaderOK_mul_lt {s : List Byte} (h : HeaderOK s) :
    headerWidth s * headerHeight s < QOI_PIXELS_MAX := by
  obtain ⟨hw, -, -, -, hlt⟩ := h
  have hpos : 0 < headerWidth s := Nat.pos_of_ne_zero hw
  have h1 : (headerHeight s + 1) * headerWidth s ≤ QOI_PIXELS_MAX :=
    (Nat.le_div_iff_mul_le hpos).1 hlt
  have h2 : (headerHeight s + 1) * headerWidth s
      = headerWidth s * headerHeight s + headerWidth s := by ring
  omega

theorem HeaderOK_numPixels {s : List Byte} (h : HeaderOK s) :
    (headerWidth s * headerHeight s) % 2 ^ SIZE_T_BITS = headerWidth s * headerHeight s := by
  have := HeaderOK_mul_lt h
  apply Nat.mod_eq_of_lt
  unfold QOI_PIXELS_MAX at this
  unfold SIZE_T_BITS
  omega

/-! ## Facts about the loop -/

theorem applyOpcode_pixels (b1 : Nat) (st : DecState) :
    (applyOpcode b1 st).pixels = st.pixels := by
  unfold applyOpcode
  split_ifs <;> rfl

theorem applyOpcode_index (b1 : Nat) (st : DecState) :
    (applyOpcode b1 st).index = st.index := by
  unfold applyOpcode
  split_ifs <;> rfl

theorem readOpcode_pixels (st : DecState) : (readOpcode st).pixels = st.pixels := by
  unfold readOpcode
  simp only [applyOpcode_pixels]

theorem decodeStep_pixels (i : Nat) (st : DecState) :
    (decodeStep i st).pixels = st.pixels.set i (decodeStep i st).px := by
  unfold decodeStep
  by_cases h : st.run > 0
  · simp only [if_pos h]
  · simp only [if_neg h, readOpcode_pixels]

theorem decodeLoop_succ_right (n i : Nat) (st : DecState) :
    decodeLoop (n + 1) i st = decodeStep (i + n) (decodeLoop n i st) := by
  induction n generalizing i st with
  | zero => rfl
  | succ n ih =>
    show decodeLoop (n + 1) (i + 1) (decodeStep i st) = _
    rw [ih]
    have : i + 1 + n = i + (n + 1) := by omega
    rw [this]
    rfl

theorem decodeLoop_pixels_length (n i : Nat) (st : DecState) :
    (decodeLoop n i st).pixels.length = st.pixels.length := by
  induction n with
  | zero => rfl
  | succ n ih => rw [decodeLoop_succ_right, decodeStep_pixels, List.length_set, ih]

/-- Slot `i + k` of the pixel vector, once the loop has passed it, holds the
`px` of the end of iteration `i + k`. -/
theorem decodeLoop_pixels_getD (d : QOIRgba) (n i : Nat) (st : DecState) (k : Nat) (hk : k < n)
    (hlen : i + k < st.pixels.length) :
    (decodeLoop n i st).pixels.getD (i + k) d = (decodeLoop (k + 1) i st).px := by
  induction n with
  | zero => omega
  | succ n ih =>
    rw [decodeLoop_succ_right n, decodeStep_pixels]
    by_cases hkn : k = n
    · subst hkn
      rw [List.getD_eq_getElem?_getD, List.getElem?_set_self, ← decodeLoop_succ_right]
      · rfl
      · rw [decodeLoop_pixels_length]; exact hlen
    · rw [List.getD_eq_getElem?_getD, List.getElem?_set_ne (by omega),
        ← List.getD_eq_getElem?_getD]
      exact ih (by omega)

/-! ## Opcode dispatch -/

set_option maxRecDepth 100000 in
theorem run_bits : ∀ b : Nat, b < 256 → 0xC0 ≤ b → b ≤ 0xFD →
    (b ≠ 0xFE ∧ b ≠ 0xFF ∧ b &&& 0xC0 = 0xC0 ∧ b &&& 0x3F ≤ 61) := by decide

set_option maxRecDepth 100000 in
theorem diff_bits : ∀ b : Nat, b < 256 → b &&& 0xC0 = 0x40 → (b ≠ 0xFE ∧ b ≠ 0xFF) := by
  decide

set_option maxRecDepth 100000 in
theorem luma_bits : ∀ b : Nat, b < 256 → b &&& 0xC0 = 0x80 → (b ≠ 0xFE ∧ b ≠ 0xFF) := by
  decide

theorem applyOpcode_run (b1 : Nat) (st : DecState) (hlt : b1 < 256) (hlo : 0xC0 ≤ b1)
    (hhi : b1 ≤ 0xFD) : applyOpcode b1 st = { st with run := b1 &&& 0x3F } := by
  obtain ⟨h1, h2, h3, -⟩ := run_bits b1 hlt hlo hhi
  simp [applyOpcode, QOI_OP_RGB, QOI_OP_RGBA, QOI_OP_INDEX, QOI_OP_DIFF, QOI_OP_LUMA,
    QOI_OP_RUN, QOI_MASK_2, h3, Ne.symm h1, Ne.symm h2]

/-- The iteration that reads a RUN opcode. -/
theorem decodeStep_run (i : Nat) (st : DecState) (b1 : Byte) (rest : List Byte)
    (hrun : st.run = 0) (hs : st.stream = b1 :: rest) (hlo : 0xC0 ≤ b1.val)
    (hhi : b1.val ≤ 0xFD) :
    decodeStep i st =
      { stream := rest
        index := st.index.set (st.px.Hash % 64) st.px
        px := st.px
        run := b1.val &&& 0x3F
        pixels := st.pixels.set i st.px } := by
  unfold decodeStep readOpcode
  rw [if_neg (by omega), hs, ReadU8_cons]
  simp only [applyOpcode_run b1.val _ b1.isLt hlo hhi]

/-- The iteration that reads an RGB literal. -/
theorem decodeStep_rgb (i : Nat) (st : DecState) (r g b : Byte) (rest : List Byte)
    (hrun : st.run = 0) (hs : st.stream = 0xFE :: r :: g :: b :: rest) :
    decodeStep i st =
      { stream := rest
        index := st.index.set ((⟨r.val, g.val, b.val, st.px.a⟩ : QOIRgba).Hash % 64)
          ⟨r.val, g.val, b.val, st.px.a⟩
        px := ⟨r.val, g.val, b.val, st.px.a⟩
        run := 0
        pixels := st.pixels.set i ⟨r.val, g.val, b.val, st.px.a⟩ } := by
  cases st
  simp only at hrun hs
  subst hrun hs
  rfl

theorem toU8_cast (x : Int) : ((toU8 x : Nat) : Int) = x % 256 := by
  unfold toU8
  exact Int.toNat_of_nonneg (Int.emod_nonneg _ (by norm_num))

/-- The current pixel after the iteration that reads a DIFF opcode. -/
theorem decodeStep_diff_px (i : Nat) (st : DecState) (b1 : Byte) (rest : List Byte)
    (hrun : st.run = 0) (hs : st.stream = b1 :: rest) (hb : b1.val &&& 0xC0 = 0x40) :
    (decodeStep i st).px =
      { r := toU8 ((st.px.r : Int) + ((((b1.val >>> 4) &&& 0x03 : Nat) : Int) - 2))
        g := toU8 ((st.px.g : Int) + ((((b1.val >>> 2) &&& 0x03 : Nat) : Int) - 2))
        b := toU8 ((st.px.b : Int) + (((b1.val &&& 0x03 : Nat) : Int) - 2))
        a := st.px.a } := by
  obtain ⟨h1, h2⟩ := diff_bits b1.val b1.isLt hb
  unfold decodeStep readOpcode
  rw [if_neg (by omega), hs, ReadU8_cons]
  simp [applyOpcode, QOI_OP_RGB, QOI_OP_RGBA, QOI_OP_INDEX, QOI_OP_DIFF, QOI_OP_LUMA,
    QOI_OP_RUN, QOI_MASK_2, hb, Ne.symm h1, Ne.symm h2]

/-- The current pixel after the iteration that reads a LUMA opcode and its
second byte. -/
theorem decodeStep_luma_px (i : Nat) (st : DecState) (b1 b2 : Byte) (rest : List Byte)
    (hrun : st.run = 0) (hs : st.stream = b1 :: b2 :: rest) (hb : b1.val &&& 0xC0 = 0x80) :
    (decodeStep i st).px =
      { r := toU8 ((st.px.r : Int) + ((((b1.val &&& 0x3F : Nat) : Int) - 32) - 8 +
          (((b2.val >>> 4) &&& 0x0F : Nat) : Int)))
        g := toU8 ((st.px.g : Int) + (((b1.val &&& 0x3F : Nat) : Int) - 32))
        b := toU8 ((st.px.b : Int) + ((((b1.val &&& 0x3F : Nat) : Int) - 32) - 8 +
          ((b2.val &&& 0x0F : Nat) : Int)))
        a := st.px.a } := by
  obtain ⟨h1, h2⟩ := luma_bits b1.val b1.isLt hb
  unfold decodeStep readOpcode
  rw [if_neg (by omega), hs, ReadU8_cons]
  simp [applyOpcode, QOI_OP_RGB, QOI_OP_RGBA, QOI_OP_INDEX, QOI_OP_DIFF, QOI_OP_LUMA,
    QOI_OP_RUN, QOI_MASK_2, hb, Ne.symm h1, Ne.symm h2, ReadU8_cons]

/-- Whatever the opcode, the iteration that reads one stores the new `px` in
its slot of the index cache. -/
theorem decodeStep_index (i : Nat) (st : DecState) (hrun : st.run = 0) :
    (decodeStep i st).index
      = st.index.set ((decodeStep i st).px.Hash % 64) (decodeStep i st).px := by
  unfold decodeStep
  rw [if_neg (by omega)]
  show (readOpcode st).index = st.index.set ((readOpcode st).px.Hash % 64) (readOpcode st).px
  unfold readOpcode
  simp only [applyOpcode_index]

theorem set_eq_self_iff {α : Type} (l : List α) (n : Nat) (a : α) (h : n < l.length) :
    l.set n a = l ↔ l[n]? = some a := by
  constructor
  · intro he
    have := List.getElem?_set_self (a := a) h
    rw [he] at this
    exact this
  · intro he
    apply List.ext_getElem?
    intro m
    by_cases hm : n = m
    · subst hm
      rw [List.getElem?_set_self h, he]
    · rw [List.getElem?_set_ne hm]

/-- An iteration taken while `run > 0`. -/
theorem decodeStep_repeat (i : Nat) (st : DecState) (hrun : 0 < st.run) :
    decodeStep i st = { st with run := st.run - 1, pixels := st.pixels.set i st.px } := by
  unfold decodeStep
  rw [if_pos hrun]

/-- During `k <= run` iterations only `run` and `pixels` change. -/
theorem decodeLoop_repeat (k i : Nat) (st : DecState) (hk : k ≤ st.run) :
    (decodeLoop k i st).stream = st.stream ∧ (decodeLoop k i st).index = st.index ∧
      (decodeLoop k i st).px = st.px ∧ (decodeLoop k i st).run = st.run - k := by
  induction k with
  | zero => exact ⟨rfl, rfl, rfl, rfl⟩
  | succ k ih =>
    obtain ⟨h1, h2, h3, h4⟩ := ih (by omega)
    rw [decodeLoop_succ_right, decodeStep_repeat _ _ (by omega)]
    refine ⟨h1, h2, h3, ?_⟩
    show (decodeLoop k i st).run - 1 = _
    omega

/-! ## Facts about the copy loop -/

theorem copyStep_eq (src : List QOIRgba) (i : Nat) (dst : List QOIRgba) :
    copyStep src i dst =
      dst.set i ⟨(src.getD i ⟨0, 0, 0, 0⟩).b, (src.getD i ⟨0, 0, 0, 0⟩).g,
        (src.getD i ⟨0, 0, 0, 0⟩).r, (src.getD i ⟨0, 0, 0, 0⟩).a⟩ := rfl

theorem copyLoop_succ_right (src : List QOIRgba) (n i : Nat) (dst : List QOIRgba) :
    copyLoop src (n + 1) i dst = copyStep src (i + n) (copyLoop src n i dst) := by
  induction n generalizing i dst with
  | zero => rfl
  | succ n ih =>
    show copyLoop src (n + 1) (i + 1) (copyStep src i dst) = _
    rw [ih]
    have : i + 1 + n = i + (n + 1) := by omega
    rw [this]
    rfl

theorem copyLoop_length (src : List QOIRgba) (n i : Nat) (dst : List QOIRgba) :
    (copyLoop src n i dst).length = dst.length := by
  induction n with
  | zero => rfl
  | succ n ih => rw [copyLoop_succ_right, copyStep_eq, List.length_set, ih]

theorem copyLoop_getElem? (src : List QOIRgba) (n i : Nat) (dst : List QOIRgba) (k : Nat)
    (hk : k < n) (hlen : i + k < dst.length) :
    (copyLoop src n i dst)[i + k]? =
      some ⟨(src.getD (i + k) ⟨0, 0, 0, 0⟩).b, (src.getD (i + k) ⟨0, 0, 0, 0⟩).g,
        (src.getD (i + k) ⟨0, 0, 0, 0⟩).r, (src.getD (i + k) ⟨0, 0, 0, 0⟩).a⟩ := by
  induction n with
  | zero => omega
  | succ n ih =>
    rw [copyLoop_succ_right, copyStep_eq]
    by_cases hkn : k = n
    · subst hkn
      rw [List.getElem?_set_self (by rw [copyLoop_length]; exact hlen)]
    · rw [List.getElem?_set_ne (by omega)]
      exact ih (by omega)

/-- The copy loop over a surface of the image's size yields the source pixels
with `r` and `b` exchanged. -/
theorem copyLoop_eq_map (src dst : List QOIRgba) (n : Nat) (hs : src.length = n)
    (hd : dst.length = n) :
    copyLoop src n 0 dst = src.map (fun p => ⟨p.b, p.g, p.r, p.a⟩) := by
  apply List.ext_getElem?
  intro m
  by_cases hm : m < n
  · have := copyLoop_getElem? src n 0 dst m hm (by omega)
    rw [Nat.zero_add] at this
    rw [this, List.getElem?_map, List.getD_eq_getElem?_getD,
      List.getElem?_eq_getElem (by omega : m < src.length)]
    rfl
  · rw [List.getElem?_eq_none (by rw [copyLoop_length]; omega),
      List.getElem?_eq_none (by rw [List.length_map]; omega)]

/-- A successful decode returns an image of `width * height` pixels, with
`width * height` below the pixel ceiling, whose header fields are those of the
source. -/
theorem Load_some_shape (s : List Byte) (img : QOIImage)
    (h : LoadQOIImageFromStream (some s) = some img) :
    img.width * img.height < 400000000 ∧ img.width * img.height < 2 ^ 32 ∧
      img.pixels.length = img.width * img.height ∧
      (s.take 4 = magicBytes ∧ HeaderOK s ∧ img.width = headerWidth s ∧
        img.height = headerHeight s ∧ img.channels = headerChannels s ∧
        img.colorSpace = headerColorSpace s) := by
  rw [Load_eq] at h
  split_ifs at h with hc
  obtain ⟨hm, hok⟩ := hc
  have hlt := HeaderOK_mul_lt hok
  rw [HeaderOK_numPixels hok] at h
  injection h with h
  subst h
  unfold QOI_PIXELS_MAX at hlt
  dsimp only
  refine ⟨hlt, by omega, ?_, hm, hok, rfl, rfl, rfl, rfl⟩
  show (decodeLoop _ 0 _).pixels.length = _
  rw [decodeLoop_pixels_length]
  simp [initState]

/-! ## Zero bytes appended to the source -/

theorem ZeroExt_headerByte {s t : List Byte} (h : ZeroExt s t) (i : Nat) :
    headerByte t i = headerByte s i := by
  obtain ⟨k, rfl⟩ := h
  unfold headerByte
  rw [List.getD_eq_getElem?_getD, List.getD_eq_getElem?_getD]
  by_cases hi : i < s.length
  · rw [List.getElem?_append_left hi]
  · rw [List.getElem?_append_right (by omega), List.getElem?_eq_none (by omega : s.length ≤ i),
      List.getElem?_replicate]
    split_ifs <;> rfl

theorem ZeroExt_drop {s t : List Byte} (h : ZeroExt s t) (n : Nat) :
    ZeroExt (s.drop n) (t.drop n) := by
  obtain ⟨k, rfl⟩ := h
  refine ⟨k - (n - s.length), ?_⟩
  rw [List.drop_append_eq_append_drop, List.drop_replicate]

theorem ZeroExt_be32At {s t : List Byte} (h : ZeroExt s t) (i : Nat) :
    be32At t i = be32At s i := by
  unfold be32At
  simp only [ZeroExt_headerByte h]

theorem applyOpcode_ext (b1 : Nat) (a b : DecState) (h : StRel a b) :
    StRel (applyOpcode b1 a) (applyOpcode b1 b) := by
  obtain ⟨hs, hi, hp, hr, hx⟩ := h
  have hb : ∀ i, headerByte b.stream i = headerByte a.stream i := ZeroExt_headerByte hs
  have hd : ∀ n, ZeroExt (a.stream.drop n) (b.stream.drop n) := ZeroExt_drop hs
  unfold applyOpcode
  simp only [ReadU8_eq, headerByte_drop, List.drop_drop, hb, hi, hp, hr, hx]
  split_ifs <;>
    exact ⟨by first | exact hd _ | exact hs, by first | rfl | exact hi,
      by first | rfl | exact hp, by first | rfl | exact hr, by first | rfl | exact hx⟩

theorem readOpcode_ext (a b : DecState) (h : StRel a b) :
    StRel (readOpcode a) (readOpcode b) := by
  have hs := h.1
  have h1 : StRel { a with stream := a.stream.drop 1 } { b with stream := b.stream.drop 1 } :=
    ⟨ZeroExt_drop hs 1, h.2.1, h.2.2.1, h.2.2.2.1, h.2.2.2.2⟩
  have h2 := applyOpcode_ext (headerByte a.stream 0) _ _ h1
  unfold readOpcode
  simp only [ReadU8_eq, ZeroExt_headerByte hs]
  obtain ⟨g1, g2, g3, g4, g5⟩ := h2
  exact ⟨g1, by show List.set _ _ _ = List.set _ _ _; rw [g2, g3], g3, g4, g5⟩

theorem decodeStep_ext (i : Nat) (a b : DecState) (h : StRel a b) :
    StRel (decodeStep i a) (decodeStep i b) := by
  have hr : b.run = a.run := h.2.2.2.1
  unfold decodeStep
  rw [hr]
  by_cases hrun : a.run > 0
  · simp only [if_pos hrun]
    obtain ⟨g1, g2, g3, g4, g5⟩ := h
    exact ⟨g1, g2, g3, rfl, by show List.set _ _ _ = List.set _ _ _; rw [g5, g3]⟩
  · simp only [if_neg hrun]
    obtain ⟨g1, g2, g3, g4, g5⟩ := readOpcode_ext a b h
    exact ⟨g1, g2, g3, g4, by show List.set _ _ _ = List.set _ _ _; rw [g5, g3]⟩

theorem decodeLoop_ext (n i : Nat) (a b : DecState) (h : StRel a b) :
    StRel (decodeLoop n i a) (decodeLoop n i b) := by
  induction n generalizing i a b with
  | zero => exact h
  | succ n ih => exact ih (i + 1) _ _ (decodeStep_ext i a b h)

theorem ZeroExt_magic {s t : List Byte} (h : ZeroExt s t) :
    t.take 4 = magicBytes ↔ s.take 4 = magicBytes := by
  rw [← magic_iff, ← magic_iff, ZeroExt_be32At h]

theorem ZeroExt_HeaderOK {s t : List Byte} (h : ZeroExt s t) : HeaderOK t ↔ HeaderOK s := by
  unfold HeaderOK headerWidth headerHeight headerChannels headerColorSpace
  simp only [ZeroExt_be32At h, ZeroExt_headerByte h]

/-- Decoding a source and decoding it with zero bytes appended agree. -/
theorem Load_ZeroExt {s t : List Byte} (h : ZeroExt s t) :
    LoadQOIImageFromStream (some t) = LoadQOIImageFromStream (some s) := by
  rw [Load_eq, Load_eq]
  by_cases hc : s.take 4 = magicBytes ∧ HeaderOK s
  · have hc' : t.take 4 = magicBytes ∧ HeaderOK t :=
      ⟨(ZeroExt_magic h).2 hc.1, (ZeroExt_HeaderOK h).2 hc.2⟩
    rw [if_pos hc, if_pos hc']
    have hw : headerWidth t = headerWidth s := ZeroExt_be32At h 4
    have hh : headerHeight t = headerHeight s := ZeroExt_be32At h 8
    have hch : headerChannels t = headerChannels s := ZeroExt_headerByte h 12
    have hcs : headerColorSpace t = headerColorSpace s := ZeroExt_headerByte h 13
    rw [hw, hh, hch, hcs]
    have hrel : StRel
        (initState (s.drop 14) ((headerWidth s * headerHeight s) % 2 ^ SIZE_T_BITS))
        (initState (t.drop 14) ((headerWidth s * headerHeight s) % 2 ^ SIZE_T_BITS)) :=
      ⟨ZeroExt_drop h 14, rfl, rfl, rfl, rfl⟩
    have := (decodeLoop_ext ((headerWidth s * headerHeight s) % 2 ^ SIZE_T_BITS) 0 _ _
      hrel).2.2.2.2
    rw [this]
  · have hc' : ¬ (t.take 4 = magicBytes ∧ HeaderOK t) :=
      fun hx => hc ⟨(ZeroExt_magic h).1 hx.1, (ZeroExt_HeaderOK h).1 hx.2⟩
    rw [if_neg hc, if_neg hc']

/-- Every source that passes the magic and header checks decodes. -/
theorem Load_isSome_of_header (s : List Byte) (hm : s.take 4 = magicBytes) (hok : HeaderOK s) :
    ∃ img, LoadQOIImageFromStream (some s) = some img ∧ img.width = headerWidth s ∧
      img.height = headerHeight s ∧ img.channels = headerChannels s ∧
      img.colorSpace = headerColorSpace s ∧
      img.pixels.length = headerWidth s * headerHeight s := by
  rw [Load_eq, if_pos ⟨hm, hok⟩, HeaderOK_numPixels hok]
  refine ⟨_, rfl, rfl, rfl, rfl, rfl, ?_⟩
  show (decodeLoop _ 0 _).pixels.length = _
  rw [decodeLoop_pixels_length]
  simp [initState]

/-! ## Sources cut short -/

theorem headerByte_take (s : List Byte) (n i : Nat) (h : i < n) :
    headerByte (s.take n) i = headerByte s i := by
  unfold headerByte
  rw [List.getD_eq_getElem?_getD, List.getD_eq_getElem?_getD, List.getElem?_take_of_lt h]

theorem be32At_take (s : List Byte) (n i : Nat) (h : i + 3 < n) :
    be32At (s.take n) i = be32At s i := by
  unfold be32At
  rw [headerByte_take s n i (by omega), headerByte_take s n (i + 1) (by omega),
    headerByte_take s n (i + 2) (by omega), headerByte_take s n (i + 3) h]

theorem HeaderOK_take (s : List Byte) (n : Nat) (h : 14 ≤ n) :
    HeaderOK (s.take n) ↔ HeaderOK s := by
  unfold HeaderOK headerWidth headerHeight headerChannels headerColorSpace
  rw [be32At_take s n 4 (by omega), be32At_take s n 8 (by omega),
    headerByte_take s n 12 (by omega), headerByte_take s n 13 (by omega)]

theorem magic_take (s : List Byte) (n : Nat) (h : 14 ≤ n) :
    (s.take n).take 4 = magicBytes ↔ s.take 4 = magicBytes := by
  rw [← magic_iff, ← magic_iff, be32At_take s n 0 (by omega)]

/-! ## The claims -/

/-- C1: a byte source whose first four bytes are not exactly `q`,`o`,`i`,`f`
(sources shorter than four bytes included) makes `LoadQOIImageFromStream`
fail: no image is returned. -/
theorem C1_bad_magic_fails (s : List Byte) (h : s.take 4 ≠ [0x71, 0x6F, 0x69, 0x66]) :
    LoadQOIImageFromStream (some s) = none := by
  rw [Load_eq, if_neg]
  exact fun hc => h hc.1

theorem C1_bad_magic_fails_witness :
    ([0x71, 0x6F, 0x69] : List Byte).take 4 ≠ [0x71, 0x6F, 0x69, 0x66] ∧
      LoadQOIImageFromStream (some [0x71, 0x6F, 0x69]) = none :=
  ⟨by decide, C1_bad_magic_fails _ (by decide)⟩

/-- C2: a byte source that starts with `qoif` and whose header has width 0, or
height 0, or a channels byte outside {3,4}, or a colour-space byte outside
{0,1}, or `height >= 400000000 / width`, makes `LoadQOIImageFromStream` fail,
whatever follows the header. -/
theorem C2_bad_header_fails (s : List Byte)
    (hmagic : s.take 4 = [0x71, 0x6F, 0x69, 0x66])
    (hbad : headerWidth s = 0 ∨ headerHeight s = 0 ∨
      (headerChannels s ≠ 3 ∧ headerChannels s ≠ 4) ∨
      (headerColorSpace s ≠ 0 ∧ headerColorSpace s ≠ 1) ∨
      headerHeight s ≥ 400000000 / headerWidth s) :
    LoadQOIImageFromStream (some s) = none := by
  have _ := hmagic
  rw [Load_eq, if_neg]
  rintro ⟨-, hw, hh, hc, hs, hlt⟩
  unfold QOI_PIXELS_MAX at hlt
  omega

theorem C2_bad_header_fails_witness :
    ([0x71, 0x6F, 0x69, 0x66, 0, 0, 0x4E, 0x20, 0, 0, 0x4E, 0x20, 4, 0, 0xFF, 1, 2, 3, 4]
        : List Byte).take 4 = [0x71, 0x6F, 0x69, 0x66] ∧
      headerWidth
        [0x71, 0x6F, 0x69, 0x66, 0, 0, 0x4E, 0x20, 0, 0, 0x4E, 0x20, 4, 0, 0xFF, 1, 2, 3, 4]
        = 20000 ∧
      headerHeight
        [0x71, 0x6F, 0x69, 0x66, 0, 0, 0x4E, 0x20, 0, 0, 0x4E, 0x20, 4, 0, 0xFF, 1, 2, 3, 4]
        = 20000 ∧
      LoadQOIImageFromStream
        (some [0x71, 0x6F, 0x69, 0x66, 0, 0, 0x4E, 0x20, 0, 0, 0x4E, 0x20, 4, 0,
          0xFF, 1, 2, 3, 4])
        = none :=
  ⟨by decide, by decide, by decide, C2_bad_header_fails _ (by decide) (by decide)⟩

/-- C3: when `LoadQOIImageFromStream` succeeds, `width * height` (over the
naturals) is below 400,000,000, hence below `2^32`; the pixel vector has
exactly `width * height` entries; and entry `i` is the `px` that iteration `i`
of the decode loop wrote there. -/
theorem C3_pixel_count (s : List Byte) (img : QOIImage)
    (h : LoadQOIImageFromStream (some s) = some img) :
    img.width * img.height < 400000000 ∧
      img.width * img.height < 2 ^ 32 ∧
      img.pixels.length = img.width * img.height ∧
      ∀ i, i < img.width * img.height →
        img.pixels.getD i ⟨0, 0, 0, 0⟩ =
          (decodeLoop (i + 1) 0 (initState (s.drop 14) (img.width * img.height))).px := by
  rw [Load_eq] at h
  split_ifs at h with hc
  obtain ⟨-, hok⟩ := hc
  have hlt := HeaderOK_mul_lt hok
  rw [HeaderOK_numPixels hok] at h
  injection h with h
  subst h
  unfold QOI_PIXELS_MAX at hlt
  dsimp only
  refine ⟨hlt, by omega, ?_, ?_⟩
  · show (decodeLoop _ 0 _).pixels.length = _
    rw [decodeLoop_pixels_length]
    simp [initState]
  · intro i hi
    have := decodeLoop_pixels_getD ⟨0, 0, 0, 0⟩ (headerWidth s * headerHeight s) 0
      (initState (s.drop 14) (headerWidth s * headerHeight s)) i hi
      (by simpa [initState] using hi)
    simpa using this

theorem C3_pixel_count_witness :
    (1 : Nat) * 1 < 400000000 ∧ (1 : Nat) * 1 < 2 ^ 32 ∧
      ([⟨16, 32, 48, 255⟩] : List QOIRgba).length = 1 * 1 ∧
      ∀ i, i < 1 * 1 →
        ([⟨16, 32, 48, 255⟩] : List QOIRgba).getD i ⟨0, 0, 0, 0⟩ =
          (decodeLoop (i + 1) 0 (initState
            (([0x71, 0x6F, 0x69, 0x66, 0, 0, 0, 1, 0, 0, 0, 1, 4, 0,
              0xFF, 0x10, 0x20, 0x30, 0xFF] : List Byte).drop 14) (1 * 1))).px :=
  C3_pixel_count
    [0x71, 0x6F, 0x69, 0x66, 0, 0, 0, 1, 0, 0, 0, 1, 4, 0, 0xFF, 0x10, 0x20, 0x30, 0xFF]
    ⟨1, 1, 4, 0, [⟨16, 32, 48, 255⟩]⟩ (by decide)

/-- C5: in a state with `run = 0` whose next byte `b1` is a RUN opcode
(`0xC0 <= b1 <= 0xFD`, `N = b1 & 0x3F <= 61`), the pixel stored at position `i`
and at each of the next `N` positions inside the pixel vector is the `px` held
before the opcode was read, whatever the loop does afterwards; the opcode
iteration leaves the stream just behind `b1`, and each of the `N` repeat
iterations leaves the stream, the index cache and `px` as they were.  A 2x1
image whose body is an RGB literal followed by `0xC0` decodes to two equal
pixels. -/
theorem C5_run_repeats (st : DecState) (i : Nat) (b1 : Byte) (rest : List Byte)
    (hrun : st.run = 0) (hs : st.stream = b1 :: rest) (hlo : 0xC0 ≤ b1.val)
    (hhi : b1.val ≤ 0xFD) :
    (b1.val &&& 0x3F) ≤ 61 ∧
      (∀ m k, k < m → k ≤ (b1.val &&& 0x3F) → i + k < st.pixels.length →
        (decodeLoop m i st).pixels.getD (i + k) ⟨0, 0, 0, 0⟩ = st.px) ∧
      (decodeLoop 1 i st).stream = rest ∧
      (∀ k, k < (b1.val &&& 0x3F) →
        decodeLoop (k + 2) i st = decodeStep (i + (k + 1)) (decodeLoop (k + 1) i st) ∧
        (decodeLoop (k + 2) i st).stream = (decodeLoop (k + 1) i st).stream ∧
        (decodeLoop (k + 2) i st).stream = rest ∧
        (decodeLoop (k + 2) i st).index = (decodeLoop (k + 1) i st).index ∧
        (decodeLoop (k + 2) i st).px = st.px) ∧
      (∀ (r g b ch cs : Byte) (tail : List Byte),
        (ch.val = 3 ∨ ch.val = 4) → (cs.val = 0 ∨ cs.val = 1) →
        LoadQOIImageFromStream
          (some ([0x71, 0x6F, 0x69, 0x66, 0, 0, 0, 2, 0, 0, 0, 1, ch, cs,
            0xFE, r, g, b, 0xC0] ++ tail))
          = some ⟨2, 1, ch.val, cs.val,
              [⟨r.val, g.val, b.val, 255⟩, ⟨r.val, g.val, b.val, 255⟩]⟩) := by
  have hstep := decodeStep_run i st b1 rest hrun hs hlo hhi
  have hafter : ∀ k, k ≤ (b1.val &&& 0x3F) →
      (decodeLoop (k + 1) i st).stream = rest ∧
        (decodeLoop (k + 1) i st).index = (decodeStep i st).index ∧
        (decodeLoop (k + 1) i st).px = st.px := by
    intro k hk
    have hr : k ≤ (decodeStep i st).run := by rw [hstep]; exact hk
    obtain ⟨h1, h2, h3, -⟩ := decodeLoop_repeat k (i + 1) (decodeStep i st) hr
    refine ⟨?_, ?_, ?_⟩
    · show (decodeLoop k (i + 1) (decodeStep i st)).stream = rest
      rw [h1, hstep]
    · exact h2
    · show (decodeLoop k (i + 1) (decodeStep i st)).px = st.px
      rw [h3, hstep]
  refine ⟨(run_bits b1.val b1.isLt hlo hhi).2.2.2, ?_, (hafter 0 (Nat.zero_le _)).1, ?_, ?_⟩
  · intro m k hkm hk hlen
    rw [decodeLoop_pixels_getD _ m i st k hkm hlen]
    exact (hafter k hk).2.2
  · intro k hk
    obtain ⟨a1, a2, a3⟩ := hafter k (by omega)
    obtain ⟨c1, c2, c3⟩ := hafter (k + 1) (by omega)
    refine ⟨decodeLoop_succ_right (k + 1) i st, ?_, c1, ?_, c3⟩
    · rw [c1, a1]
    · rw [c2, a2]
  · intro r g b ch cs tail hch hcs
    have hw : headerWidth ([0x71, 0x6F, 0x69, 0x66, 0, 0, 0, 2, 0, 0, 0, 1, ch, cs,
          0xFE, r, g, b, 0xC0] ++ tail) = 2 := by
      simp [headerWidth, be32At, headerByte]
    have hh : headerHeight ([0x71, 0x6F, 0x69, 0x66, 0, 0, 0, 2, 0, 0, 0, 1, ch, cs,
          0xFE, r, g, b, 0xC0] ++ tail) = 1 := by
      simp [headerHeight, be32At, headerByte]
    have hc : headerChannels ([0x71, 0x6F, 0x69, 0x66, 0, 0, 0, 2, 0, 0, 0, 1, ch, cs,
          0xFE, r, g, b, 0xC0] ++ tail) = ch.val := by
      simp [headerChannels, headerByte]
    have hcs' : headerColorSpace ([0x71, 0x6F, 0x69, 0x66, 0, 0, 0, 2, 0, 0, 0, 1, ch, cs,
          0xFE, r, g, b, 0xC0] ++ tail) = cs.val := by
      simp [headerColorSpace, headerByte]
    rw [Load_eq, if_pos]
    · rw [hw, hh, hc, hcs']
      have e2 : (2 * 1) % 2 ^ SIZE_T_BITS = 2 := by decide
      have e14 : ([0x71, 0x6F, 0x69, 0x66, 0, 0, 0, 2, 0, 0, 0, 1, ch, cs,
          0xFE, r, g, b, 0xC0] ++ tail).drop 14 = 0xFE :: r :: g :: b :: 0xC0 :: tail := rfl
      rw [e2, e14]
      show some (QOIImage.mk 2 1 ch.val cs.val (decodeStep 1 (decodeStep 0
          (initState (0xFE :: r :: g :: b :: 0xC0 :: tail) 2))).pixels) = _
      rw [decodeStep_rgb 0 _ r g b (0xC0 :: tail) rfl rfl,
        decodeStep_run 1 _ 0xC0 tail rfl rfl (by decide) (by decide)]
      rfl
    · refine ⟨rfl, ?_⟩
      unfold HeaderOK
      rw [hw, hh, hc, hcs']
      exact ⟨by decide, by decide, hch, hcs, by decide⟩

theorem C5_run_repeats_witness :
    (0xC2 &&& 0x3F) ≤ 61 ∧
      (∀ m k, k < m → k ≤ (0xC2 &&& 0x3F) →
        0 + k < (initState [0xC2, 0xFF, 1, 2, 3, 4] 4).pixels.length →
        (decodeLoop m 0 (initState [0xC2, 0xFF, 1, 2, 3, 4] 4)).pixels.getD (0 + k) ⟨0, 0, 0, 0⟩
          = ⟨0, 0, 0, 255⟩) ∧
      (decodeLoop 4 0 (initState [0xC2, 0xFF, 1, 2, 3, 4] 4)).pixels
        = [⟨0, 0, 0, 255⟩, ⟨0, 0, 0, 255⟩, ⟨0, 0, 0, 255⟩, ⟨1, 2, 3, 4⟩] :=
  ⟨(C5_run_repeats (initState [0xC2, 0xFF, 1, 2, 3, 4] 4) 0 0xC2 [0xFF, 1, 2, 3, 4]
      rfl rfl (by decide) (by decide)).1,
    (C5_run_repeats (initState [0xC2, 0xFF, 1, 2, 3, 4] 4) 0 0xC2 [0xFF, 1, 2, 3, 4]
      rfl rfl (by decide) (by decide)).2.1,
    by decide⟩

/-- C6: with `run = 0` and opcode byte `b1` next in the stream, a DIFF opcode
(top bits 01) turns the current pixel `(r,g,b,a)` into
`((r + ((b1>>4)&3) - 2) mod 256, (g + ((b1>>2)&3) - 2) mod 256,
(b + (b1&3) - 2) mod 256, a)`; a LUMA opcode (top bits 10) with second byte
`b2` and `vg = (b1 & 0x3F) - 32` turns it into
`((r + vg - 8 + ((b2>>4)&0xF)) mod 256, (g + vg) mod 256,
(b + vg - 8 + (b2&0xF)) mod 256, a)`.  The channels wrap modulo 256 and do not
saturate: `r = 254` with a net delta of `+3` gives `r = 1`. -/
theorem C6_diff_luma_wrap (st : DecState) (i : Nat) (b1 : Byte) (rest : List Byte)
    (hrun : st.run = 0) (hs : st.stream = b1 :: rest) :
    (b1.val &&& 0xC0 = 0x40 →
      ((decodeStep i st).px.r : Int)
          = ((st.px.r : Int) + (((b1.val >>> 4) &&& 3 : Nat) : Int) - 2) % 256 ∧
        ((decodeStep i st).px.g : Int)
          = ((st.px.g : Int) + (((b1.val >>> 2) &&& 3 : Nat) : Int) - 2) % 256 ∧
        ((decodeStep i st).px.b : Int)
          = ((st.px.b : Int) + ((b1.val &&& 3 : Nat) : Int) - 2) % 256 ∧
        (decodeStep i st).px.a = st.px.a) ∧
      (b1.val &&& 0xC0 = 0x80 → ∀ (b2 : Byte) (rest2 : List Byte), rest = b2 :: rest2 →
        ((decodeStep i st).px.r : Int)
          = ((st.px.r : Int) + (((b1.val &&& 0x3F : Nat) : Int) - 32) - 8
              + (((b2.val >>> 4) &&& 0xF : Nat) : Int)) % 256 ∧
        ((decodeStep i st).px.g : Int)
          = ((st.px.g : Int) + (((b1.val &&& 0x3F : Nat) : Int) - 32)) % 256 ∧
        ((decodeStep i st).px.b : Int)
          = ((st.px.b : Int) + (((b1.val &&& 0x3F : Nat) : Int) - 32) - 8
              + ((b2.val &&& 0xF : Nat) : Int)) % 256 ∧
        (decodeStep i st).px.a = st.px.a) ∧
      (∀ (g b a : Nat) (idx pix : List QOIRgba) (tail : List Byte),
        (decodeStep i ⟨0xA0 :: 0xB8 :: tail, idx, ⟨254, g, b, a⟩, 0, pix⟩).px.r = 1) := by
  refine ⟨?_, ?_, ?_⟩
  · intro hb
    rw [decodeStep_diff_px i st b1 rest hrun hs hb]
    refine ⟨?_, ?_, ?_, rfl⟩ <;>
    · refine (toU8_cast _).trans ?_
      first
        | rfl
        | (congr 1; ring)
  · intro hb b2 rest2 hrest
    rw [decodeStep_luma_px i st b1 b2 rest2 hrun (by rw [hs, hrest]) hb]
    refine ⟨?_, ?_, ?_, rfl⟩ <;>
    · refine (toU8_cast _).trans ?_
      first
        | rfl
        | (congr 1; ring)
  · intro g b a idx pix tail
    rw [decodeStep_luma_px i _ 0xA0 0xB8 tail rfl rfl (by decide)]
    show toU8 (((254 : Nat) : Int) + ((((0xA0 : Byte).val &&& 0x3F : Nat) : Int) - 32 - 8
      + ((((0xB8 : Byte).val >>> 4) &&& 0x0F : Nat) : Int))) = 1
    decide

theorem C6_diff_luma_wrap_witness :
    (decodeStep 0 ⟨[0x7F], List.replicate 64 ⟨0, 0, 0, 0⟩, ⟨255, 0, 7, 9⟩, 0,
        [⟨0, 0, 0, 0⟩]⟩).px = ⟨0, 1, 8, 9⟩ ∧
      (decodeStep 0 ⟨[0xA0, 0xB8], List.replicate 64 ⟨0, 0, 0, 0⟩, ⟨254, 3, 250, 9⟩, 0,
        [⟨0, 0, 0, 0⟩]⟩).px = ⟨1, 3, 250, 9⟩ ∧
      (((decodeStep 0 ⟨[0x7F], List.replicate 64 ⟨0, 0, 0, 0⟩, ⟨255, 0, 7, 9⟩, 0,
        [⟨0, 0, 0, 0⟩]⟩).px.g : Nat) : Int)
          = (((0 : Nat) : Int) + ((((0x7F : Byte).val >>> 2) &&& 3 : Nat) : Int) - 2) % 256 :=
  ⟨by decide, by decide,
    ((C6_diff_luma_wrap ⟨[0x7F], List.replicate 64 ⟨0, 0, 0, 0⟩, ⟨255, 0, 7, 9⟩, 0,
        [⟨0, 0, 0, 0⟩]⟩ 0 0x7F [] rfl rfl).1 (by decide)).2.1⟩

/-- C9 (as the code has it): with a 64-slot cache, `run = 0` and opcode byte
`b1` next in the stream, the iteration stores the current pixel it ends with
in slot `(3r+5g+7b+11a) mod 64` and leaves every other slot unchanged, for
every opcode, RUN included.  For a RUN opcode (`0xC0 <= b1 <= 0xFD`) the
current pixel is unchanged, so the cache is the same after as before exactly
when that slot already held the current pixel.  An iteration taken while
`run > 0` leaves the cache unchanged. -/
theorem C9_index_update (st : DecState) (i : Nat) (b1 : Byte) (rest : List Byte)
    (hlen : st.index.length = 64) (hrun : st.run = 0) (hs : st.stream = b1 :: rest) :
    (decodeStep i st).index.length = 64 ∧
      (decodeStep i st).index.getD ((decodeStep i st).px.Hash % 64) ⟨0, 0, 0, 0⟩
        = (decodeStep i st).px ∧
      (∀ j, j ≠ (decodeStep i st).px.Hash % 64 →
        (decodeStep i st).index.getD j ⟨0, 0, 0, 0⟩ = st.index.getD j ⟨0, 0, 0, 0⟩) ∧
      (0xC0 ≤ b1.val → b1.val ≤ 0xFD →
        (decodeStep i st).px = st.px ∧
        ((decodeStep i st).index = st.index ↔
          st.index.getD (st.px.Hash % 64) ⟨0, 0, 0, 0⟩ = st.px)) ∧
      (∀ (st2 : DecState) (i2 : Nat), 0 < st2.run → (decodeStep i2 st2).index = st2.index) := by
  have hidx := decodeStep_index i st hrun
  have hlt : (decodeStep i st).px.Hash % 64 < st.index.length := by
    rw [hlen]; exact Nat.mod_lt _ (by norm_num)
  refine ⟨?_, ?_, ?_, ?_, ?_⟩
  · rw [hidx, List.length_set, hlen]
  · rw [hidx, List.getD_eq_getElem?_getD, List.getElem?_set_self hlt]
    rfl
  · intro j hj
    rw [hidx, List.getD_eq_getElem?_getD, List.getElem?_set_ne (Ne.symm hj),
      ← List.getD_eq_getElem?_getD]
  · intro hlo hhi
    have hpx : (decodeStep i st).px = st.px := by
      rw [decodeStep_run i st b1 rest hrun hs hlo hhi]
    refine ⟨hpx, ?_⟩
    rw [hidx, hpx]
    rw [hpx] at hlt
    rw [set_eq_self_iff _ _ _ hlt, List.getD_eq_getElem?_getD]
    constructor
    · intro h; rw [h]; rfl
    · intro h
      rw [List.getElem?_eq_getElem hlt] at h ⊢
      exact congrArg some h
  · intro st2 i2 h2
    rw [decodeStep_repeat i2 st2 h2]

theorem C9_index_update_witness :
    (decodeStep 0 (initState [0xFE, 1, 2, 3] 1)).index.length = 64 ∧
      (decodeStep 0 (initState [0xFE, 1, 2, 3] 1)).index.getD
          ((decodeStep 0 (initState [0xFE, 1, 2, 3] 1)).px.Hash % 64) ⟨0, 0, 0, 0⟩
        = (decodeStep 0 (initState [0xFE, 1, 2, 3] 1)).px ∧
      (decodeStep 0 (initState [0xFE, 1, 2, 3] 1)).px = ⟨1, 2, 3, 255⟩ :=
  ⟨(C9_index_update (initState [0xFE, 1, 2, 3] 1) 0 0xFE [1, 2, 3] rfl rfl rfl).1,
    (C9_index_update (initState [0xFE, 1, 2, 3] 1) 0 0xFE [1, 2, 3] rfl rfl rfl).2.1,
    by decide⟩

/-- C9, counterexample: the loop-entry state of a 1x1 image whose body is the
RUN opcode `0xC0`.  Processing the opcode changes slot 53 of the index cache
from `(0,0,0,0)` to `(0,0,0,255)`, so the cache is not the same after the RUN
opcode as before it. -/
theorem C9_counterexample :
    (initState [0xC0] 1).run = 0 ∧ (initState [0xC0] 1).stream = [0xC0] ∧
      (initState [0xC0] 1).index.getD 53 ⟨0, 0, 0, 0⟩ = ⟨0, 0, 0, 0⟩ ∧
      (decodeStep 0 (initState [0xC0] 1)).index.getD 53 ⟨0, 0, 0, 0⟩ = ⟨0, 0, 0, 255⟩ ∧
      (decodeStep 0 (initState [0xC0] 1)).index ≠ (initState [0xC0] 1).index ∧
      LoadQOIImageFromStream
          (some [0x71, 0x6F, 0x69, 0x66, 0, 0, 0, 2, 0, 0, 0, 1, 4, 0, 0xC0, 0x35])
        = some ⟨2, 1, 4, 0, [⟨0, 0, 0, 255⟩, ⟨0, 0, 0, 255⟩]⟩ := by
  decide

/-- C7: for a decoded image and a surface of `width * height` pixels,
`QOIImageToHBITMAP` succeeds with a bitmap of `width * height` pixels in which
pixel `i` has `b` equal to the source `r`, `r` equal to the source `b`, and `g`
and `a` equal to the source `g` and `a` (position and values kept); the source
pixel `(r=10,g=20,b=30,a=40)` becomes `(b=10,g=20,r=30,a=40)`; and converting
the converted pixels once more gives back the decoded pixels. -/
theorem C7_channel_swap (s : List Byte) (img : QOIImage) (dst dst2 : List QOIRgba)
    (h : LoadQOIImageFromStream (some s) = some img)
    (hdst : dst.length = img.width * img.height)
    (hdst2 : dst2.length = img.width * img.height) :
    ∃ out, QOIImageToHBITMAP img (some dst) = some out ∧
      out.length = img.width * img.height ∧
      (∀ i, i < img.width * img.height →
        (out.getD i ⟨0, 0, 0, 0⟩).b = (img.pixels.getD i ⟨0, 0, 0, 0⟩).r ∧
        (out.getD i ⟨0, 0, 0, 0⟩).g = (img.pixels.getD i ⟨0, 0, 0, 0⟩).g ∧
        (out.getD i ⟨0, 0, 0, 0⟩).r = (img.pixels.getD i ⟨0, 0, 0, 0⟩).b ∧
        (out.getD i ⟨0, 0, 0, 0⟩).a = (img.pixels.getD i ⟨0, 0, 0, 0⟩).a) ∧
      (∀ (d : QOIRgba), QOIImageToHBITMAP ⟨1, 1, 4, 0, [⟨10, 20, 30, 40⟩]⟩ (some [d])
        = some [{ b := 10, g := 20, r := 30, a := 40 }]) ∧
      QOIImageToHBITMAP { img with pixels := out } (some dst2) = some img.pixels := by
  obtain ⟨hlt, hlt32, hlen, -⟩ := Load_some_shape s img h
  have hnum : (img.width * img.height) % 2 ^ SIZE_T_BITS = img.width * img.height :=
    Nat.mod_eq_of_lt hlt32
  have hout : copyLoop img.pixels (img.width * img.height) 0 dst
      = img.pixels.map (fun p => ⟨p.b, p.g, p.r, p.a⟩) :=
    copyLoop_eq_map _ _ _ hlen hdst
  refine ⟨copyLoop img.pixels (img.width * img.height) 0 dst, ?_, ?_, ?_, ?_, ?_⟩
  · unfold QOIImageToHBITMAP
    rw [hnum]
  · rw [copyLoop_length, hdst]
  · intro i hi
    have hi' : i < img.pixels.length := by omega
    rw [hout, List.getD_eq_getElem?_getD, List.getD_eq_getElem?_getD, List.getElem?_map,
      List.getElem?_eq_getElem hi']
    exact ⟨rfl, rfl, rfl, rfl⟩
  · intro d
    rfl
  · unfold QOIImageToHBITMAP
    show some (copyLoop _ ((img.width * img.height) % 2 ^ SIZE_T_BITS) 0 dst2) = _
    rw [hnum, copyLoop_eq_map _ dst2 _ (by rw [copyLoop_length, hdst]) hdst2, hout,
      List.map_map]
    congr 1
    conv_rhs => rw [← List.map_id img.pixels]
    rfl

theorem C7_channel_swap_witness :
    LoadQOIImageFromStream
        (some [0x71, 0x6F, 0x69, 0x66, 0, 0, 0, 1, 0, 0, 0, 1, 4, 0, 0xFF, 10, 20, 30, 40])
        = some ⟨1, 1, 4, 0, [⟨10, 20, 30, 40⟩]⟩ ∧
      ([⟨7, 7, 7, 7⟩] : List QOIRgba).length = 1 * 1 ∧
      ∃ out, QOIImageToHBITMAP ⟨1, 1, 4, 0, [⟨10, 20, 30, 40⟩]⟩ (some [⟨7, 7, 7, 7⟩]) = some out ∧
        out.length = 1 * 1 ∧
        QOIImageToHBITMAP ⟨1, 1, 4, 0, out⟩ (some [⟨7, 7, 7, 7⟩]) = some [⟨10, 20, 30, 40⟩] :=
  ⟨by decide, rfl,
    (C7_channel_swap
      [0x71, 0x6F, 0x69, 0x66, 0, 0, 0, 1, 0, 0, 0, 1, 4, 0, 0xFF, 10, 20, 30, 40]
      ⟨1, 1, 4, 0, [⟨10, 20, 30, 40⟩]⟩ [⟨7, 7, 7, 7⟩] [⟨7, 7, 7, 7⟩] (by decide) rfl rfl).imp
      (fun _ h => ⟨h.1, h.2.1, h.2.2.2.2⟩)⟩

/-- C8: when `GetThumbnail` succeeds, the header's channels byte is 3 or 4,
the reported alpha type is `WTSAT_RGB` exactly when that byte is 3 and
`WTSAT_ARGB` exactly when it is 4.  The stream `qoif`, width 1, height 1,
channels 4, colour space 0, body `[0xFF,0x10,0x20,0x30,0xFF]` decodes to the
single pixel `(16,32,48,255)` and reports `WTSAT_ARGB`. -/
theorem C8_alpha_mode (s : List Byte) (surface : Option (List QOIRgba))
    (hbmp : List QOIRgba) (dwAlpha : WTS_ALPHATYPE)
    (h : GetThumbnail (some s) surface = ThumbResult.S_OK hbmp dwAlpha) :
    (headerChannels s = 3 ∨ headerChannels s = 4) ∧
      (dwAlpha = WTS_ALPHATYPE.WTSAT_RGB ↔ headerChannels s = 3) ∧
      (dwAlpha = WTS_ALPHATYPE.WTSAT_ARGB ↔ headerChannels s = 4) ∧
      LoadQOIImageFromStream
          (some [0x71, 0x6F, 0x69, 0x66, 0, 0, 0, 1, 0, 0, 0, 1, 4, 0,
            0xFF, 0x10, 0x20, 0x30, 0xFF])
        = some ⟨1, 1, 4, 0, [⟨16, 32, 48, 255⟩]⟩ ∧
      (∀ d : QOIRgba, GetThumbnail
          (some [0x71, 0x6F, 0x69, 0x66, 0, 0, 0, 1, 0, 0, 0, 1, 4, 0,
            0xFF, 0x10, 0x20, 0x30, 0xFF]) (some [d])
        = ThumbResult.S_OK [{ b := 16, g := 32, r := 48, a := 255 }]
            WTS_ALPHATYPE.WTSAT_ARGB) := by
  unfold GetThumbnail at h
  cases hl : LoadQOIImageFromStream (some s) with
  | none => simp only [hl] at h; cases h
  | some img =>
    simp only [hl] at h
    obtain ⟨-, -, -, -, hok, -, -, hch, -⟩ := Load_some_shape s img hl
    obtain ⟨-, -, hc, -, -⟩ := hok
    cases hq : QOIImageToHBITMAP img surface with
    | none => simp only [hq] at h; cases h
    | some out =>
      simp only [hq] at h
      injection h with h1 h2
      rw [hch] at h2
      refine ⟨hc, ?_, ?_, by decide, ?_⟩
      · rcases hc with hc | hc
        · rw [hc] at h2 ⊢
          simp at h2
          simp [← h2]
        · rw [hc] at h2 ⊢
          simp at h2
          simp [← h2]
      · rcases hc with hc | hc
        · rw [hc] at h2 ⊢
          simp at h2
          simp [← h2]
        · rw [hc] at h2 ⊢
          simp at h2
          simp [← h2]
      · intro d
        rfl

theorem C8_alpha_mode_witness :
    GetThumbnail (some [0x71, 0x6F, 0x69, 0x66, 0, 0, 0, 1, 0, 0, 0, 1, 3, 1, 0xFE, 1, 2, 3])
        (some [⟨0, 0, 0, 0⟩])
        = ThumbResult.S_OK [{ b := 1, g := 2, r := 3, a := 255 }] WTS_ALPHATYPE.WTSAT_RGB ∧
      (WTS_ALPHATYPE.WTSAT_RGB = WTS_ALPHATYPE.WTSAT_RGB ↔
        headerChannels
          [0x71, 0x6F, 0x69, 0x66, 0, 0, 0, 1, 0, 0, 0, 1, 3, 1, 0xFE, 1, 2, 3] = 3) :=
  ⟨by decide,
    (C8_alpha_mode [0x71, 0x6F, 0x69, 0x66, 0, 0, 0, 1, 0, 0, 0, 1, 3, 1, 0xFE, 1, 2, 3]
      (some [⟨0, 0, 0, 0⟩]) [{ b := 1, g := 2, r := 3, a := 255 }] WTS_ALPHATYPE.WTSAT_RGB
      (by decide)).2.1⟩

/-- C10: a read the stream cannot serve yields the value 0; decoding a source
and decoding the same source followed by `k` zero bytes give the same outcome
(both fail, or both return the same image); and a source that passes the
magic and header checks always decodes, to an image of `width * height`
pixels, whatever the length of its pixel stream. -/
theorem C10_zero_padding (s : List Byte) (k : Nat) :
    (∀ t : List Byte, (streamRead t).1 = none → (ReadU8 t).1 = 0) ∧
      LoadQOIImageFromStream (some (s ++ List.replicate k 0))
        = LoadQOIImageFromStream (some s) ∧
      (s.take 4 = [0x71, 0x6F, 0x69, 0x66] → HeaderOK s →
        ∃ img, LoadQOIImageFromStream (some s) = some img ∧
          img.pixels.length = headerWidth s * headerHeight s) := by
  refine ⟨?_, Load_ZeroExt ⟨k, rfl⟩, ?_⟩
  · intro t ht
    cases t with
    | nil => rfl
    | cons b r => cases ht
  · intro hm hok
    obtain ⟨img, h1, -, -, -, -, h2⟩ := Load_isSome_of_header s hm hok
    exact ⟨img, h1, h2⟩

theorem C10_zero_padding_witness :
    LoadQOIImageFromStream
        (some ([0x71, 0x6F, 0x69, 0x66, 0, 0, 0, 2, 0, 0, 0, 1, 4, 0, 0xFF, 9, 8]
          ++ List.replicate 3 0))
        = LoadQOIImageFromStream
          (some [0x71, 0x6F, 0x69, 0x66, 0, 0, 0, 2, 0, 0, 0, 1, 4, 0, 0xFF, 9, 8]) ∧
      LoadQOIImageFromStream
          (some [0x71, 0x6F, 0x69, 0x66, 0, 0, 0, 2, 0, 0, 0, 1, 4, 0, 0xFF, 9, 8])
        = some ⟨2, 1, 4, 0, [⟨9, 8, 0, 0⟩, ⟨0, 0, 0, 0⟩]⟩ ∧
      ∃ img, LoadQOIImageFromStream
          (some [0x71, 0x6F, 0x69, 0x66, 0, 0, 0, 2, 0, 0, 0, 1, 4, 0, 0xFF, 9, 8]) = some img ∧
        img.pixels.length
          = headerWidth [0x71, 0x6F, 0x69, 0x66, 0, 0, 0, 2, 0, 0, 0, 1, 4, 0, 0xFF, 9, 8]
            * headerHeight [0x71, 0x6F, 0x69, 0x66, 0, 0, 0, 2, 0, 0, 0, 1, 4, 0, 0xFF, 9, 8] :=
  ⟨(C10_zero_padding [0x71, 0x6F, 0x69, 0x66, 0, 0, 0, 2, 0, 0, 0, 1, 4, 0, 0xFF, 9, 8] 3).2.1,
    by decide,
    (C10_zero_padding [0x71, 0x6F, 0x69, 0x66, 0, 0, 0, 2, 0, 0, 0, 1, 4, 0, 0xFF, 9, 8] 3).2.2
      (by decide) (by decide)⟩

/-- C4 (as the code has it): a source with a valid magic and header, cut off
anywhere at or after the end of its 14-byte header, still decodes: the result
is an image with the header's width, height, channels and colour space and
exactly `width * height` pixels.  A read the stream cannot serve yields the
value 0 and the stream stays exhausted. -/
theorem C4_truncated_stream_decodes (s : List Byte) (n : Nat) (hn : 14 ≤ n)
    (hmagic : s.take 4 = [0x71, 0x6F, 0x69, 0x66]) (hok : HeaderOK s) :
    ReadU8 [] = (0, []) ∧
      ∃ img, LoadQOIImageFromStream (some (s.take n)) = some img ∧
        img.width = headerWidth s ∧ img.height = headerHeight s ∧
        img.channels = headerChannels s ∧ img.colorSpace = headerColorSpace s ∧
        img.pixels.length = headerWidth s * headerHeight s := by
  refine ⟨rfl, ?_⟩
  obtain ⟨img, h1, h2, h3, h4, h5, h6⟩ :=
    Load_isSome_of_header (s.take n) ((magic_take s n hn).2 hmagic) ((HeaderOK_take s n hn).2 hok)
  have hw : headerWidth (s.take n) = headerWidth s := be32At_take s n 4 (by omega)
  have hh : headerHeight (s.take n) = headerHeight s := be32At_take s n 8 (by omega)
  have hc : headerChannels (s.take n) = headerChannels s := headerByte_take s n 12 (by omega)
  have hs : headerColorSpace (s.take n) = headerColorSpace s :=
    headerByte_take s n 13 (by omega)
  rw [hw] at h2 h6
  rw [hh] at h3 h6
  rw [hc] at h4
  rw [hs] at h5
  exact ⟨img, h1, h2, h3, h4, h5, h6⟩

theorem C4_truncated_stream_decodes_witness :
    ([0x71, 0x6F, 0x69, 0x66, 0, 0, 0, 2, 0, 0, 0, 1, 4, 0, 0xFF, 1, 2, 3, 4, 0xFF, 5, 6, 7, 8]
        : List Byte).take 4 = [0x71, 0x6F, 0x69, 0x66] ∧
      LoadQOIImageFromStream (some
        (([0x71, 0x6F, 0x69, 0x66, 0, 0, 0, 2, 0, 0, 0, 1, 4, 0,
          0xFF, 1, 2, 3, 4, 0xFF, 5, 6, 7, 8] : List Byte).take 16))
        = some ⟨2, 1, 4, 0, [⟨1, 0, 0, 0⟩, ⟨0, 0, 0, 0⟩]⟩ ∧
      (ReadU8 [] = (0, []) ∧
        ∃ img, LoadQOIImageFromStream (some
          (([0x71, 0x6F, 0x69, 0x66, 0, 0, 0, 2, 0, 0, 0, 1, 4, 0,
            0xFF, 1, 2, 3, 4, 0xFF, 5, 6, 7, 8] : List Byte).take 16)) = some img ∧
          img.width = headerWidth [0x71, 0x6F, 0x69, 0x66, 0, 0, 0, 2, 0, 0, 0, 1, 4, 0,
            0xFF, 1, 2, 3, 4, 0xFF, 5, 6, 7, 8] ∧
          img.height = headerHeight [0x71, 0x6F, 0x69, 0x66, 0, 0, 0, 2, 0, 0, 0, 1, 4, 0,
            0xFF, 1, 2, 3, 4, 0xFF, 5, 6, 7, 8] ∧
          img.channels = headerChannels [0x71, 0x6F, 0x69, 0x66, 0, 0, 0, 2, 0, 0, 0, 1, 4, 0,
            0xFF, 1, 2, 3, 4, 0xFF, 5, 6, 7, 8] ∧
          img.colorSpace = headerColorSpace [0x71, 0x6F, 0x69, 0x66, 0, 0, 0, 2, 0, 0, 0, 1,
            4, 0, 0xFF, 1, 2, 3, 4, 0xFF, 5, 6, 7, 8] ∧
          img.pixels.length
            = headerWidth [0x71, 0x6F, 0x69, 0x66, 0, 0, 0, 2, 0, 0, 0, 1, 4, 0,
                0xFF, 1, 2, 3, 4, 0xFF, 5, 6, 7, 8]
              * headerHeight [0x71, 0x6F, 0x69, 0x66, 0, 0, 0, 2, 0, 0, 0, 1, 4, 0,
                0xFF, 1, 2, 3, 4, 0xFF, 5, 6, 7, 8]) :=
  ⟨by decide, by decide,
    C4_truncated_stream_decodes
      [0x71, 0x6F, 0x69, 0x66, 0, 0, 0, 2, 0, 0, 0, 1, 4, 0, 0xFF, 1, 2, 3, 4, 0xFF, 5, 6, 7, 8]
      16 (by decide) (by decide) (by decide)⟩

/-- C4, counterexample: a 1x1 image with a valid magic and header and no pixel
stream at all.  The first opcode read already finds the stream exhausted, yet
decode succeeds and returns the pixel `(0,0,0,0)` (the missing opcode byte is
taken as 0, an INDEX opcode).  With the body `[0xFF, 0x10]`, cut in the middle
of an RGBA literal, decode returns the pixel `(16,0,0,0)`. -/
theorem C4_counterexample :
    ([0x71, 0x6F, 0x69, 0x66, 0, 0, 0, 1, 0, 0, 0, 1, 4, 0] : List Byte).take 4
        = [0x71, 0x6F, 0x69, 0x66] ∧
      HeaderOK [0x71, 0x6F, 0x69, 0x66, 0, 0, 0, 1, 0, 0, 0, 1, 4, 0] ∧
      streamRead (([0x71, 0x6F, 0x69, 0x66, 0, 0, 0, 1, 0, 0, 0, 1, 4, 0] : List Byte).drop 14)
        = (none, []) ∧
      LoadQOIImageFromStream (some [0x71, 0x6F, 0x69, 0x66, 0, 0, 0, 1, 0, 0, 0, 1, 4, 0])
        = some ⟨1, 1, 4, 0, [⟨0, 0, 0, 0⟩]⟩ ∧
      LoadQOIImageFromStream
          (some [0x71, 0x6F, 0x69, 0x66, 0, 0, 0, 1, 0, 0, 0, 1, 4, 0, 0xFF, 0x10])
        = some ⟨1, 1, 4, 0, [⟨16, 0, 0, 0⟩]⟩ := by
  decide

end QOI
